import Mathlib

/-!
Verification of the serial-range expansion and bulk-item-intake core of the
BreganMainsFlowSCApp repository.

Strings are modelled as `List Char`.  The JavaScript digit test
`!isNaN(parseInt(c, 10))` holds for a single character exactly when the
character is an ASCII decimal digit, so it is modelled by `Char.isDigit`.
JavaScript numbers are modelled by `Nat`; this is exact for every value below
2 ^ 53.  The regime at and above 2 ^ 53, where JavaScript's IEEE-754 doubles
round, is modelled separately by `jsRound` and the fuelled `expandRangeJS`.
-/

set_option maxRecDepth 40000

namespace BreganSerials

/-- The triple returned by the source's `parseSerial` (its fields `prefix`,
`numStr`, `suffix`; the first and last are renamed `pre` and `suf` here
because `prefix` is a Lean keyword). -/
structure ParsedSerial where
  pre : List Char
  numStr : List Char
  suf : List Char
deriving DecidableEq, Repr

/-- Embedding of `parseSerial` (src/unnamed/part_000 lines 38-59).  The
source scans from the last character backwards to the last digit (returning
`null` when there is none) and then keeps scanning backwards over digits; the
backward scan is rendered as `takeWhile` / `dropWhile` on the reversed list:
the maximal digit-free tail is the suffix, the maximal digit run before it is
`numStr`, and the rest is the prefix. -/
def parseSerial (serial : List Char) : Option ParsedSerial :=
  match serial.reverse.dropWhile (fun c => !c.isDigit) with
  | [] => none
  | c :: rest =>
    some ⟨((c :: rest).dropWhile (fun c => c.isDigit)).reverse,
          ((c :: rest).takeWhile (fun c => c.isDigit)).reverse,
          (serial.reverse.takeWhile (fun c => !c.isDigit)).reverse⟩

/-- Numeric value of an ASCII digit character. -/
def digitVal (c : Char) : Nat := c.toNat - 48

/-- Value of a digit string read left to right, as `parseInt(s, 10)` computes
it on an all-digit string (idealized: exact, no rounding). -/
def digitsToNat (l : List Char) : Nat := l.foldl (fun a c => 10 * a + digitVal c) 0

/-- Fuelled big-endian decimal rendering helper. -/
def natToDigitsAux : Nat → Nat → List Char → List Char
  | 0, _, acc => acc
  | fuel + 1, n, acc =>
    if n < 10 then Nat.digitChar n :: acc
    else natToDigitsAux fuel (n / 10) (Nat.digitChar (n % 10) :: acc)

/-- Decimal rendering of a natural number, as JavaScript's `String(i)`
renders an integral number (plain decimal digits, no sign, no padding). -/
def natToDigits (n : Nat) : List Char := natToDigitsAux (n + 1) n []

/-- Embedding of `String.prototype.padStart(len, c)`: left-pad to length
`len` with `c`; a string already at least `len` long is returned unchanged. -/
def padStart (s : List Char) (len : Nat) (c : Char) : List Char :=
  List.replicate (len - s.length) c ++ s

/-- Error text from src/unnamed/part_000 line 73. -/
def invalidFormatMsg : List Char :=
  "Invalid format. Serials must contain a number part for range expansion.".data

/-- Error text from src/unnamed/part_000 line 82. -/
def textPartsMismatchMsg : List Char :=
  "The text parts (prefix/suffix) of the serial numbers do not match.".data

/-- Error text from src/unnamed/part_000 line 90. -/
def reversedRangeMsg : List Char :=
  "The start number cannot be greater than the end number.".data

/-- Result of `expandRange`: `{ result: string[] }` on success or
`{ error: string }` on failure (mutually exclusive in the source). -/
inductive ExpandResult where
  | ok (result : List (List Char))
  | error (msg : List Char)
deriving DecidableEq, Repr

/-- Embedding of `expandRange` (src/unnamed/part_000 lines 68-104): parse
both endpoints (either failing yields the invalid-format error), compare
prefix and suffix for exact equality, compare the numeric values, and
otherwise build the inclusive ascending sequence of reassembled serials,
each number left-padded to the longer endpoint's digit-run length.  The
`for (let i = startNum; i <= endNum; i++)` loop materializing the array is
rendered as a map over `List.range' startNum (endNum - startNum + 1)`. -/
def expandRange (a b : List Char) : ExpandResult :=
  match parseSerial a, parseSerial b with
  | some sp, some ep =>
    if sp.pre ≠ ep.pre ∨ sp.suf ≠ ep.suf then .error textPartsMismatchMsg
    else
      let startNum := digitsToNat sp.numStr
      let endNum := digitsToNat ep.numStr
      if endNum < startNum then .error reversedRangeMsg
      else
        let padLength := max sp.numStr.length ep.numStr.length
        .ok ((List.range' startNum (endNum - startNum + 1)).map
          (fun i => sp.pre ++ padStart (natToDigits i) padLength '0' ++ sp.suf))
  | _, _ => .error invalidFormatMsg

/-- Embedding of `String.prototype.trim`: drop whitespace from both ends. -/
def jsTrim (s : List Char) : List Char :=
  ((s.dropWhile Char.isWhitespace).reverse.dropWhile Char.isWhitespace).reverse

/-- Error text from src/unnamed/part_000 line 1020 (and line 1145), with the
interpolated element count. -/
def rangeTooLargeMsg (n : Nat) : List Char :=
  "Range is too large. A maximum of 1000 items can be added at once, but this range contains ".data
    ++ natToDigits n ++ ".".data

/-- Error text from src/unnamed/part_000 line 1031, with the interpolated
line count. -/
def listTooLongMsg (n : Nat) : List Char :=
  "List is too long. A maximum of 1000 items can be added at once, but you have provided ".data
    ++ natToDigits n ++ ".".data

/-- Error text from src/unnamed/part_000 line 1036. -/
def duplicateSerialsMsg : List Char :=
  "The list contains duplicate serial numbers. Please ensure each is unique.".data

/-- The intake mode selected in the add-item form (`addMode`). -/
inductive AddMode where
  | range
  | list
deriving DecidableEq

/-- The value of the source's `serialsProcessingResult` memo: a serial list
together with an optional error, `{ serials, error }`. -/
structure ProcessingResult where
  serials : List (List Char)
  error : Option (List Char)
deriving DecidableEq, Repr

/-- Embedding of the `serialsProcessingResult` memo (src/unnamed/part_000
lines 1003-1041).  Range mode trims both endpoints, returns silently on a
blank endpoint, expands, and rejects expansions longer than 1000.  List mode
splits the text on newlines, trims each line, discards blank lines, rejects
more than 1000 lines, and then rejects duplicates (`new Set(lines).size`
differing from `lines.length` is rendered via `List.dedup`). -/
def serialsProcessingResult (mode : AddMode) (firstSerial lastSerial barcodes : List Char) :
    ProcessingResult :=
  match mode with
  | .range =>
    let start := jsTrim firstSerial
    let stop := jsTrim lastSerial
    if start = [] ∨ stop = [] then ⟨[], none⟩
    else
      match expandRange start stop with
      | .error e => ⟨[], some e⟩
      | .ok expanded =>
        if 1000 < expanded.length then ⟨[], some (rangeTooLargeMsg expanded.length)⟩
        else ⟨expanded, none⟩
  | .list =>
    if jsTrim barcodes = [] then ⟨[], none⟩
    else
      let lines := ((barcodes.splitOn '\n').map jsTrim).filter (fun l => l ≠ [])
      if 1000 < lines.length then ⟨[], some (listTooLongMsg lines.length)⟩
      else if lines.dedup.length ≠ lines.length then ⟨[], some duplicateSerialsMsg⟩
      else ⟨lines, none⟩

/-- Embedding of the `scannedSerialsProcessingResult` memo
(src/unnamed/part_000 lines 1124-1149).  The UI-state test
`selectedItemType?.category === StockCategory.METERS` is abstracted to the
boolean `isMeterType`; the optional serials model the source's
`firstSerial?.trim()` (`undefined` and a blank string both fail the `!start`
test, modelled by `Option.map jsTrim` then `getD []`). -/
def scannedSerialsProcessingResult (isMeterType : Bool)
    (firstSerial lastSerial : Option (List Char)) : ProcessingResult :=
  if isMeterType = false then ⟨[], none⟩
  else
    let start := (firstSerial.map jsTrim).getD []
    let stop := (lastSerial.map jsTrim).getD []
    if start = [] ∨ stop = [] then ⟨[], none⟩
    else
      match expandRange start stop with
      | .error e => ⟨[], some e⟩
      | .ok expanded =>
        if 1000 < expanded.length then ⟨[], some (rangeTooLargeMsg expanded.length)⟩
        else ⟨expanded, none⟩

/-- Floor of the base-2 logarithm, computed with structural fuel so that the
kernel can evaluate it. -/
def floorLog2Aux : Nat → Nat → Nat
  | 0, _ => 0
  | fuel + 1, n => if n ≤ 1 then 0 else floorLog2Aux fuel (n / 2) + 1

/-- Floor of the base-2 logarithm (`floorLog2 0 = 0`). -/
def floorLog2 (n : Nat) : Nat := floorLog2Aux n n

/-- Round a natural number to the nearest value exactly representable as an
IEEE-754 binary64 (JavaScript number), ties to even mantissa.  Values below
2 ^ 53 are exactly representable; above, only multiples of the power-of-two
spacing `2 ^ (exponent - 52)` are.  Overflow to infinity (near 1.8e308) is
out of the range this development evaluates and is not modelled. -/
def jsRound (n : Nat) : Nat :=
  if n = 0 then 0
  else
    let e := floorLog2 n
    if e ≤ 52 then n
    else
      let ulp := 2 ^ (e - 52)
      let q := n / ulp
      let r := n % ulp
      if 2 * r < ulp then q * ulp
      else if ulp < 2 * r then (q + 1) * ulp
      else if q % 2 = 0 then q * ulp
      else (q + 1) * ulp

/-- `parseInt(numStr, 10)` on an all-digit string under JavaScript number
semantics: the exact value, rounded to the nearest representable double. -/
def parseIntJS (l : List Char) : Nat := jsRound (digitsToNat l)

/-- One `i++` step of the generation loop under JavaScript number semantics:
the exact successor rounded back to a representable double. -/
def jsSucc (i : Nat) : Nat := jsRound (i + 1)

/-- The source's generation loop `for (let i = startNum; i <= endNum; i++)`
under JavaScript number semantics, with explicit fuel: `none` means the loop
has not finished within `fuel` iterations. -/
def genLoopJS : Nat → Nat → Nat → (Nat → List Char) → List (List Char) →
    Option (List (List Char))
  | 0, _, _, _, _ => none
  | fuel + 1, i, stop, render, acc =>
    if stop < i then some acc.reverse
    else genLoopJS fuel (jsSucc i) stop render (render i :: acc)

/-- `expandRange` under JavaScript number semantics: identical validation,
but the numeric runs are parsed through `parseIntJS` and the loop is the
fuelled `genLoopJS`.  `none` means the call has not returned within the
given fuel. -/
def expandRangeJS (fuel : Nat) (a b : List Char) : Option ExpandResult :=
  match parseSerial a, parseSerial b with
  | some sp, some ep =>
    if sp.pre ≠ ep.pre ∨ sp.suf ≠ ep.suf then some (.error textPartsMismatchMsg)
    else
      let startNum := parseIntJS sp.numStr
      let endNum := parseIntJS ep.numStr
      if endNum < startNum then some (.error reversedRangeMsg)
      else
        let padLength := max sp.numStr.length ep.numStr.length
        (genLoopJS fuel startNum endNum
          (fun i => sp.pre ++ padStart (natToDigits i) padLength '0' ++ sp.suf) []).map .ok
  | _, _ => some (.error invalidFormatMsg)

/-- The numeric value embedded in a serial string: the value of its parsed
numeric run (0 when the string has none). -/
def embeddedNum (s : List Char) : Nat :=
  match parseSerial s with
  | some p => digitsToNat p.numStr
  | none => 0

/-- Length of the list materialized by a successful expansion (0 on error). -/
def okLength : ExpandResult → Nat
  | .ok l => l.length
  | .error _ => 0

/-! ### List helper lemmas -/

theorem takeWhile_eq_nil_of_head? {α : Type} {p : α → Bool} {l : List α}
    (h : ∀ a, l.head? = some a → p a = false) : l.takeWhile p = [] := by
  cases l with
  | nil => rfl
  | cons a t =>
    have ha := h a rfl
    simp [List.takeWhile_cons, ha]

theorem dropWhile_eq_self_of_head? {α : Type} {p : α → Bool} {l : List α}
    (h : ∀ a, l.head? = some a → p a = false) : l.dropWhile p = l := by
  cases l with
  | nil => rfl
  | cons a t =>
    have ha := h a rfl
    simp [List.dropWhile_cons, ha]

theorem head?_dropWhile_false {α : Type} {p : α → Bool} {l : List α} {a : α}
    (h : (l.dropWhile p).head? = some a) : p a = false := by
  have H := List.head?_dropWhile_not p l
  rw [h] at H
  exact H

theorem head?_reverse_eq_getLast? {α : Type} (l : List α) : l.reverse.head? = l.getLast? := by
  have h := List.getLast?_reverse l.reverse
  rw [List.reverse_reverse] at h
  exact h.symm

/-! ### Serial-parser lemmas -/

theorem parseSerial_eq_none_iff (s : List Char) :
    parseSerial s = none ↔ ∀ c ∈ s, ¬ c.isDigit := by
  constructor
  · intro h c hc hd
    cases hr : s.reverse.dropWhile (fun c => !c.isDigit) with
    | nil =>
      have := List.dropWhile_eq_nil_iff.mp hr c (List.mem_reverse.mpr hc)
      simp [hd] at this
    | cons x t => simp [parseSerial, hr] at h
  · intro h
    have hr : s.reverse.dropWhile (fun c => !c.isDigit) = [] := by
      rw [List.dropWhile_eq_nil_iff]
      intro x hx
      simp [h x (List.mem_reverse.mp hx)]
    simp [parseSerial, hr]

theorem parseSerial_some_spec {s : List Char} {p : ParsedSerial}
    (h : parseSerial s = some p) :
    p.pre ++ p.numStr ++ p.suf = s ∧ p.numStr ≠ [] ∧
      (∀ c ∈ p.numStr, c.isDigit) ∧ (∀ c ∈ p.suf, ¬ c.isDigit) ∧
      (∀ c, p.pre.getLast? = some c → ¬ c.isDigit) := by
  cases hr : s.reverse.dropWhile (fun c => !c.isDigit) with
  | nil => simp [parseSerial, hr] at h
  | cons c rest =>
    simp only [parseSerial, hr] at h
    have hc : c.isDigit := by
      have := head?_dropWhile_false (l := s.reverse) (p := fun c => !c.isDigit) (by rw [hr]; rfl)
      simpa using this
    obtain rfl : p = ⟨((c :: rest).dropWhile (fun c => c.isDigit)).reverse,
        ((c :: rest).takeWhile (fun c => c.isDigit)).reverse,
        (s.reverse.takeWhile (fun c => !c.isDigit)).reverse⟩ := by
      cases h; rfl
    refine ⟨?_, ?_, ?_, ?_, ?_⟩
    · show (((c :: rest).dropWhile (fun c => c.isDigit)).reverse ++
        ((c :: rest).takeWhile (fun c => c.isDigit)).reverse) ++
        (s.reverse.takeWhile (fun c => !c.isDigit)).reverse = s
      rw [← List.reverse_append, ← List.reverse_append,
        List.takeWhile_append_dropWhile, ← hr, List.takeWhile_append_dropWhile,
        List.reverse_reverse]
    · simp [List.takeWhile_cons, hc]
    · intro x hx
      exact List.mem_takeWhile_imp (List.mem_reverse.mp hx)
    · intro x hx
      have := List.mem_takeWhile_imp (List.mem_reverse.mp hx)
      simpa using this
    · intro x hx
      rw [List.getLast?_reverse] at hx
      have := head?_dropWhile_false hx
      simpa using this

theorem parseSerial_of_parts (p n q : List Char) (hn : n ≠ [])
    (hnd : ∀ c ∈ n, c.isDigit) (hq : ∀ c ∈ q, ¬ c.isDigit)
    (hp : ∀ c, p.getLast? = some c → ¬ c.isDigit) :
    parseSerial (p ++ n ++ q) = some ⟨p, n, q⟩ := by
  obtain ⟨m, ms, hm⟩ : ∃ m ms, n.reverse = m :: ms := by
    cases hnr : n.reverse with
    | nil => exact absurd (by simpa using congrArg List.reverse hnr) hn
    | cons m ms => exact ⟨m, ms, rfl⟩
  have hmd : m.isDigit := by
    have : m ∈ n.reverse := by rw [hm]; exact List.mem_cons_self m ms
    exact hnd m (List.mem_reverse.mp this)
  have hrev : (p ++ n ++ q).reverse = q.reverse ++ (n.reverse ++ p.reverse) := by
    simp [List.reverse_append, List.append_assoc]
  have hqall : ∀ c ∈ q.reverse, (!c.isDigit) = true := by
    intro c hc
    simp [hq c (List.mem_reverse.mp hc)]
  have hnall : ∀ c ∈ n.reverse, c.isDigit = true := by
    intro c hc
    exact hnd c (List.mem_reverse.mp hc)
  have hphead : ∀ a, p.reverse.head? = some a → a.isDigit = false := by
    intro a ha
    rw [head?_reverse_eq_getLast?] at ha
    simpa using hp a ha
  have hdropq : (p ++ n ++ q).reverse.dropWhile (fun c => !c.isDigit) =
      n.reverse ++ p.reverse := by
    rw [hrev, List.dropWhile_append_of_pos hqall]
    apply dropWhile_eq_self_of_head?
    intro a ha
    rw [hm, List.cons_append] at ha
    cases ha
    simp [hmd]
  have htakeq : (p ++ n ++ q).reverse.takeWhile (fun c => !c.isDigit) = q.reverse := by
    rw [hrev, List.takeWhile_append_of_pos hqall, takeWhile_eq_nil_of_head?, List.append_nil]
    intro a ha
    rw [hm, List.cons_append] at ha
    cases ha
    simp [hmd]
  have htaken : (n.reverse ++ p.reverse).takeWhile (fun c => c.isDigit) = n.reverse := by
    rw [List.takeWhile_append_of_pos hnall, takeWhile_eq_nil_of_head? hphead, List.append_nil]
  have hdropn : (n.reverse ++ p.reverse).dropWhile (fun c => c.isDigit) = p.reverse := by
    rw [List.dropWhile_append_of_pos hnall]
    exact dropWhile_eq_self_of_head? hphead
  have hcons : (p ++ n ++ q).reverse.dropWhile (fun c => !c.isDigit) =
      m :: (ms ++ p.reverse) := by
    rw [hdropq, hm, List.cons_append]
  have hback : m :: (ms ++ p.reverse) = n.reverse ++ p.reverse := by
    rw [hm, List.cons_append]
  have hfinal : parseSerial (p ++ n ++ q) =
      some ⟨((m :: (ms ++ p.reverse)).dropWhile (fun c => c.isDigit)).reverse,
            ((m :: (ms ++ p.reverse)).takeWhile (fun c => c.isDigit)).reverse,
            ((p ++ n ++ q).reverse.takeWhile (fun c => !c.isDigit)).reverse⟩ := by
    unfold parseSerial
    rw [hcons]
  rw [hfinal, hback, htaken, hdropn, htakeq, List.reverse_reverse, List.reverse_reverse,
    List.reverse_reverse]

/-! ### Decimal rendering lemmas -/

theorem digitVal_digitChar (d : Nat) (hd : d < 10) : digitVal (Nat.digitChar d) = d := by
  interval_cases d <;> decide

theorem digitChar_isDigit (d : Nat) (hd : d < 10) : (Nat.digitChar d).isDigit := by
  interval_cases d <;> decide

theorem natToDigitsAux_append (fuel : Nat) :
    ∀ (n : Nat) (acc : List Char),
      natToDigitsAux fuel n acc = natToDigitsAux fuel n [] ++ acc := by
  induction fuel with
  | zero => intro n acc; simp [natToDigitsAux]
  | succ fuel ih =>
    intro n acc
    by_cases h10 : n < 10
    · simp [natToDigitsAux, h10]
    · simp only [natToDigitsAux, if_neg h10]
      rw [ih (n / 10) [Nat.digitChar (n % 10)], ih (n / 10) (Nat.digitChar (n % 10) :: acc)]
      simp

theorem natToDigitsAux_ne_nil_of_acc (fuel : Nat) :
    ∀ (n : Nat) (acc : List Char), acc ≠ [] → natToDigitsAux fuel n acc ≠ [] := by
  induction fuel with
  | zero => intro n acc h; simpa [natToDigitsAux] using h
  | succ fuel ih =>
    intro n acc h
    by_cases h10 : n < 10
    · simp [natToDigitsAux, h10]
    · simp only [natToDigitsAux, if_neg h10]
      exact ih (n / 10) _ (by simp)

theorem natToDigits_ne_nil (n : Nat) : natToDigits n ≠ [] := by
  unfold natToDigits
  by_cases h10 : n < 10
  · simp [natToDigitsAux, h10]
  · simp only [natToDigitsAux, if_neg h10]
    exact natToDigitsAux_ne_nil_of_acc n (n / 10) _ (by simp)

theorem natToDigitsAux_all_digit (fuel : Nat) :
    ∀ (n : Nat) (acc : List Char), (∀ c ∈ acc, c.isDigit) →
      ∀ c ∈ natToDigitsAux fuel n acc, c.isDigit := by
  induction fuel with
  | zero => intro n acc h; simpa [natToDigitsAux] using h
  | succ fuel ih =>
    intro n acc h c hc
    by_cases h10 : n < 10
    · simp only [natToDigitsAux, if_pos h10] at hc
      rcases List.mem_cons.mp hc with hcd | hacc
      · subst hcd; exact digitChar_isDigit n h10
      · exact h c hacc
    · simp only [natToDigitsAux, if_neg h10] at hc
      refine ih (n / 10) _ ?_ c hc
      intro x hx
      rcases List.mem_cons.mp hx with hxd | hxa
      · subst hxd; exact digitChar_isDigit _ (Nat.mod_lt n (by norm_num))
      · exact h x hxa

theorem natToDigits_all_digit (n : Nat) : ∀ c ∈ natToDigits n, c.isDigit :=
  natToDigitsAux_all_digit (n + 1) n [] (by simp)

theorem natToDigitsAux_foldl (fuel : Nat) :
    ∀ (n a : Nat), n < 10 ^ fuel →
      List.foldl (fun a c => 10 * a + digitVal c) a (natToDigitsAux fuel n []) =
        a * 10 ^ (natToDigitsAux fuel n []).length + n := by
  induction fuel with
  | zero =>
    intro n a hn
    interval_cases n
    simp [natToDigitsAux]
  | succ fuel ih =>
    intro n a hn
    by_cases h10 : n < 10
    · simp only [natToDigitsAux, if_pos h10, List.foldl_cons, List.foldl_nil,
        List.length_cons, List.length_nil]
      rw [digitVal_digitChar n h10]
      ring_nf
    · have hrw : natToDigitsAux (fuel + 1) n [] =
          natToDigitsAux fuel (n / 10) [] ++ [Nat.digitChar (n % 10)] := by
        simp only [natToDigitsAux, if_neg h10]
        exact natToDigitsAux_append fuel (n / 10) [Nat.digitChar (n % 10)]
      have hdiv : n / 10 < 10 ^ fuel := by
        rw [Nat.div_lt_iff_lt_mul (by norm_num)]
        calc n < 10 ^ (fuel + 1) := hn
          _ = 10 ^ fuel * 10 := by ring
      rw [hrw, List.foldl_append, List.length_append, ih (n / 10) a hdiv]
      simp only [List.foldl_cons, List.foldl_nil, List.length_cons, List.length_nil]
      rw [digitVal_digitChar _ (Nat.mod_lt n (by norm_num))]
      have hmod := Nat.div_add_mod n 10
      have hpow : 10 ^ ((natToDigitsAux fuel (n / 10) []).length + (0 + 1)) =
          10 ^ (natToDigitsAux fuel (n / 10) []).length * 10 := by
        rw [Nat.zero_add, Nat.pow_succ]
      rw [hpow]
      set L := 10 ^ (natToDigitsAux fuel (n / 10) []).length with hL
      calc 10 * (a * L + n / 10) + n % 10 = a * (L * 10) + (10 * (n / 10) + n % 10) := by ring
        _ = a * (L * 10) + n := by rw [hmod]

theorem digitsToNat_natToDigits (n : Nat) : digitsToNat (natToDigits n) = n := by
  have hb : n < 10 ^ (n + 1) := by
    calc n < 2 ^ n := Nat.lt_two_pow n
      _ ≤ 10 ^ n := Nat.pow_le_pow_left (by norm_num) n
      _ ≤ 10 ^ (n + 1) := Nat.pow_le_pow_right (by norm_num) (Nat.le_succ n)
  have h := natToDigitsAux_foldl (n + 1) n 0 hb
  simpa [digitsToNat, natToDigits] using h

/-! ### Padding lemmas -/

theorem padStart_length (s : List Char) (len : Nat) (c : Char) :
    (padStart s len c).length = max len s.length := by
  simp [padStart]
  omega

theorem padStart_eq_of_le {s : List Char} {len : Nat} (c : Char) (h : len ≤ s.length) :
    padStart s len c = s := by
  simp [padStart, Nat.sub_eq_zero_of_le h]

theorem digitsToNat_replicate_zero_append (k : Nat) (l : List Char) :
    digitsToNat (List.replicate k '0' ++ l) = digitsToNat l := by
  unfold digitsToNat
  rw [List.foldl_append]
  have h : List.foldl (fun a c => 10 * a + digitVal c) 0 (List.replicate k '0') = 0 := by
    induction k with
    | zero => rfl
    | succ k ih => simpa [List.replicate_succ, digitVal] using ih
  rw [h]

theorem digitsToNat_padStart (s : List Char) (len : Nat) :
    digitsToNat (padStart s len '0') = digitsToNat s :=
  digitsToNat_replicate_zero_append _ _

theorem padStart_all_digit {s : List Char} (len : Nat) (hs : ∀ c ∈ s, c.isDigit) :
    ∀ c ∈ padStart s len '0', c.isDigit := by
  intro c hc
  rcases List.mem_append.mp hc with hrep | hmem
  · rw [List.eq_of_mem_replicate hrep]; decide
  · exact hs c hmem

theorem padStart_ne_nil {s : List Char} (len : Nat) (c : Char) (hs : s ≠ []) :
    padStart s len c ≠ [] := by
  simp [padStart, hs]

/-! ### Range-expansion characterization lemmas -/

theorem expandRange_some_some {a b : List Char} {sp ep : ParsedSerial}
    (hpa : parseSerial a = some sp) (hpb : parseSerial b = some ep) :
    expandRange a b =
      if sp.pre ≠ ep.pre ∨ sp.suf ≠ ep.suf then .error textPartsMismatchMsg
      else if digitsToNat ep.numStr < digitsToNat sp.numStr then .error reversedRangeMsg
      else .ok ((List.range' (digitsToNat sp.numStr)
          (digitsToNat ep.numStr - digitsToNat sp.numStr + 1)).map
        (fun i => sp.pre ++ padStart (natToDigits i)
          (max sp.numStr.length ep.numStr.length) '0' ++ sp.suf)) := by
  simp only [expandRange, hpa, hpb]

theorem expandRange_none_left {a b : List Char} (hpa : parseSerial a = none) :
    expandRange a b = .error invalidFormatMsg := by
  unfold expandRange
  rw [hpa]

theorem expandRange_none_right {a b : List Char} (hpb : parseSerial b = none) :
    expandRange a b = .error invalidFormatMsg := by
  unfold expandRange
  rw [hpb]
  cases parseSerial a <;> rfl

theorem expandRange_eq_ok {a b : List Char} {res : List (List Char)}
    (h : expandRange a b = .ok res) :
    ∃ sp ep : ParsedSerial, parseSerial a = some sp ∧ parseSerial b = some ep ∧
      sp.pre = ep.pre ∧ sp.suf = ep.suf ∧
      digitsToNat sp.numStr ≤ digitsToNat ep.numStr ∧
      res = (List.range' (digitsToNat sp.numStr)
          (digitsToNat ep.numStr - digitsToNat sp.numStr + 1)).map
        (fun i => sp.pre ++ padStart (natToDigits i)
          (max sp.numStr.length ep.numStr.length) '0' ++ sp.suf) := by
  cases hpa : parseSerial a with
  | none => rw [expandRange_none_left hpa] at h; exact absurd h (by simp)
  | some sp =>
    cases hpb : parseSerial b with
    | none => rw [expandRange_none_right hpb] at h; exact absurd h (by simp)
    | some ep =>
      rw [expandRange_some_some hpa hpb] at h
      by_cases hne : sp.pre ≠ ep.pre ∨ sp.suf ≠ ep.suf
      · rw [if_pos hne] at h; exact absurd h (by simp)
      · rw [if_neg hne] at h
        push_neg at hne
        by_cases hord : digitsToNat ep.numStr < digitsToNat sp.numStr
        · rw [if_pos hord] at h; exact absurd h (by simp)
        · rw [if_neg hord] at h
          injection h with h
          exact ⟨sp, ep, rfl, rfl, hne.1, hne.2, Nat.le_of_not_lt hord, h.symm⟩

theorem parse_render {s0 : List Char} {sp : ParsedSerial} (hs : parseSerial s0 = some sp)
    (i padLength : Nat) :
    parseSerial (sp.pre ++ padStart (natToDigits i) padLength '0' ++ sp.suf) =
      some ⟨sp.pre, padStart (natToDigits i) padLength '0', sp.suf⟩ := by
  obtain ⟨-, -, -, hsuf, hpre⟩ := parseSerial_some_spec hs
  exact parseSerial_of_parts _ _ _
    (padStart_ne_nil _ '0' (natToDigits_ne_nil i))
    (padStart_all_digit _ (natToDigits_all_digit i)) hsuf hpre

theorem embeddedNum_render {s0 : List Char} {sp : ParsedSerial}
    (hs : parseSerial s0 = some sp) (i padLength : Nat) :
    embeddedNum (sp.pre ++ padStart (natToDigits i) padLength '0' ++ sp.suf) = i := by
  rw [embeddedNum, parse_render hs i padLength]
  simp only []
  rw [digitsToNat_padStart, digitsToNat_natToDigits]

/-! ### Processing-result characterization lemmas -/

theorem serialsProcessingResult_range_eq (f l barcodes : List Char)
    (hf : jsTrim f ≠ []) (hl : jsTrim l ≠ []) :
    serialsProcessingResult .range f l barcodes =
      match expandRange (jsTrim f) (jsTrim l) with
      | .error e => ⟨[], some e⟩
      | .ok expanded =>
        if 1000 < expanded.length then ⟨[], some (rangeTooLargeMsg expanded.length)⟩
        else ⟨expanded, none⟩ := by
  unfold serialsProcessingResult
  rw [if_neg (by simp [hf, hl])]

theorem scannedSerialsProcessingResult_eq (f l : List Char)
    (hf : jsTrim f ≠ []) (hl : jsTrim l ≠ []) :
    scannedSerialsProcessingResult true (some f) (some l) =
      match expandRange (jsTrim f) (jsTrim l) with
      | .error e => ⟨[], some e⟩
      | .ok expanded =>
        if 1000 < expanded.length then ⟨[], some (rangeTooLargeMsg expanded.length)⟩
        else ⟨expanded, none⟩ := by
  unfold scannedSerialsProcessingResult
  rw [if_neg (by simp)]
  simp only [Option.map_some', Option.getD_some]
  rw [if_neg (by simp [hf, hl])]

/-! ### JavaScript-number model lemmas -/

theorem two_pow_floorLog2Aux_le (fuel : Nat) :
    ∀ n : Nat, 0 < n → n ≤ fuel → 2 ^ floorLog2Aux fuel n ≤ n := by
  induction fuel with
  | zero =>
    intro n hn _
    simpa [floorLog2Aux] using hn
  | succ fuel ih =>
    intro n hn hf
    by_cases h1 : n ≤ 1
    · simp only [floorLog2Aux, if_pos h1]
      simpa using hn
    · simp only [floorLog2Aux, if_neg h1]
      have hdiv : 0 < n / 2 := by omega
      have hfd : n / 2 ≤ fuel := by omega
      have hrec := ih (n / 2) hdiv hfd
      calc 2 ^ (floorLog2Aux fuel (n / 2) + 1) = 2 * 2 ^ floorLog2Aux fuel (n / 2) := by ring
        _ ≤ 2 * (n / 2) := by omega
        _ ≤ n := by omega

theorem jsRound_eq_of_lt {n : Nat} (h : n < 2 ^ 53) : jsRound n = n := by
  by_cases h0 : n = 0
  · simp [jsRound, h0]
  · have hle : floorLog2 n ≤ 52 := by
      by_contra hgt
      push_neg at hgt
      have h2 : 2 ^ 53 ≤ 2 ^ floorLog2 n := Nat.pow_le_pow_right (by norm_num) hgt
      have h3 : 2 ^ floorLog2 n ≤ n :=
        two_pow_floorLog2Aux_le n n (Nat.pos_of_ne_zero h0) le_rfl
      omega
    simp [jsRound, h0, hle]

theorem genLoopJS_stall (fuel : Nat) :
    ∀ (i stop : Nat) (render : Nat → List Char) (acc : List (List Char)),
      jsSucc i = i → ¬ stop < i → genLoopJS fuel i stop render acc = none := by
  induction fuel with
  | zero => intro i stop render acc _ _; rfl
  | succ fuel ih =>
    intro i stop render acc hsucc hlt
    simp only [genLoopJS, if_neg hlt]
    rw [hsucc]
    exact ih i stop render _ hsucc hlt

theorem expandRangeJS_some_some {a b : List Char} {sp ep : ParsedSerial} (fuel : Nat)
    (hpa : parseSerial a = some sp) (hpb : parseSerial b = some ep) :
    expandRangeJS fuel a b =
      if sp.pre ≠ ep.pre ∨ sp.suf ≠ ep.suf then some (.error textPartsMismatchMsg)
      else if parseIntJS ep.numStr < parseIntJS sp.numStr then some (.error reversedRangeMsg)
      else (genLoopJS fuel (parseIntJS sp.numStr) (parseIntJS ep.numStr)
        (fun i => sp.pre ++ padStart (natToDigits i)
          (max sp.numStr.length ep.numStr.length) '0' ++ sp.suf) []).map .ok := by
  simp only [expandRangeJS, hpa, hpb]

theorem genLoopJS_succ (fuel i stop : Nat) (render : Nat → List Char)
    (acc : List (List Char)) :
    genLoopJS (fuel + 1) i stop render acc =
      if stop < i then some acc.reverse
      else genLoopJS fuel (jsSucc i) stop render (render i :: acc) := rfl

theorem map_ok_ne_some_error (x : Option (List (List Char))) (m : List Char) :
    x.map ExpandResult.ok ≠ some (.error m) := by
  cases x <;> simp

theorem jsSucc_gt_of_lt {i : Nat} (h : i < 2 ^ 53) : i < jsSucc i := by
  unfold jsSucc
  by_cases h1 : i + 1 < 2 ^ 53
  · rw [jsRound_eq_of_lt h1]; omega
  · have h2 : i + 1 = 2 ^ 53 := by omega
    have h3 : jsRound (2 ^ 53) = 2 ^ 53 := by decide
    rw [h2, h3]
    omega

/-- Concrete 1001-line newline-delimited text in which every line is the
same serial, used to exercise the list-mode length cap. -/
def tooLongDupText : List Char := (List.replicate 1001 "A\n".data).flatten

/-! ### Claim theorems -/

/-- C1: whenever `expandRange` succeeds, the result has length
`endNum - startNum + 1` (hence is non-empty), element `k` is the reassembly
`prefix ++ paddedNumber ++ suffix` rendered from the value `startNum + k`,
the numeric value embedded in element `k` is exactly `startNum + k`, and the
embedded numeric values are strictly ascending along the list. -/
theorem expandRange_ok_spec (a b : List Char) (res : List (List Char))
    (h : expandRange a b = .ok res) :
    ∃ sp ep : ParsedSerial, parseSerial a = some sp ∧ parseSerial b = some ep ∧
      res.length = digitsToNat ep.numStr - digitsToNat sp.numStr + 1 ∧
      res ≠ [] ∧
      (∀ k (hk : k < res.length),
        res.get ⟨k, hk⟩ = sp.pre ++ padStart (natToDigits (digitsToNat sp.numStr + k))
          (max sp.numStr.length ep.numStr.length) '0' ++ sp.suf ∧
        embeddedNum (res.get ⟨k, hk⟩) = digitsToNat sp.numStr + k) ∧
      (∀ j k (hj : j < res.length) (hk : k < res.length), j < k →
        embeddedNum (res.get ⟨j, hj⟩) < embeddedNum (res.get ⟨k, hk⟩)) := by
  obtain ⟨sp, ep, hpa, hpb, hpre, hsuf, hord, hres⟩ := expandRange_eq_ok h
  subst hres
  have hlen : ((List.range' (digitsToNat sp.numStr)
      (digitsToNat ep.numStr - digitsToNat sp.numStr + 1)).map
        (fun i => sp.pre ++ padStart (natToDigits i)
          (max sp.numStr.length ep.numStr.length) '0' ++ sp.suf)).length =
      digitsToNat ep.numStr - digitsToNat sp.numStr + 1 := by
    simp [List.length_range']
  have hget : ∀ k (hk : k < ((List.range' (digitsToNat sp.numStr)
      (digitsToNat ep.numStr - digitsToNat sp.numStr + 1)).map
        (fun i => sp.pre ++ padStart (natToDigits i)
          (max sp.numStr.length ep.numStr.length) '0' ++ sp.suf)).length),
      ((List.range' (digitsToNat sp.numStr)
        (digitsToNat ep.numStr - digitsToNat sp.numStr + 1)).map
          (fun i => sp.pre ++ padStart (natToDigits i)
            (max sp.numStr.length ep.numStr.length) '0' ++ sp.suf)).get ⟨k, hk⟩ =
        sp.pre ++ padStart (natToDigits (digitsToNat sp.numStr + k))
          (max sp.numStr.length ep.numStr.length) '0' ++ sp.suf := by
    intro k hk
    simp [List.get_eq_getElem, List.getElem_map, List.getElem_range']
  refine ⟨sp, ep, hpa, hpb, hlen, ?_, ?_, ?_⟩
  · exact List.length_pos.mp (by rw [hlen]; omega)
  · intro k hk
    refine ⟨hget k hk, ?_⟩
    rw [hget k hk]
    exact embeddedNum_render hpa _ _
  · intro j k hj hk hjk
    rw [hget j hj, hget k hk, embeddedNum_render hpa _ _, embeddedNum_render hpa _ _]
    omega

/-- Witness for `expandRange_ok_spec` at the concrete pair `("X1","X3")`. -/
theorem expandRange_ok_spec_witness :
    expandRange "X1".data "X3".data = .ok ["X1".data, "X2".data, "X3".data] ∧
    ∃ sp ep : ParsedSerial, parseSerial "X1".data = some sp ∧
      parseSerial "X3".data = some ep ∧
      (["X1".data, "X2".data, "X3".data] : List (List Char)).length =
        digitsToNat ep.numStr - digitsToNat sp.numStr + 1 := by
  refine ⟨by decide, ?_⟩
  obtain ⟨sp, ep, h1, h2, h3, -, -, -⟩ :=
    expandRange_ok_spec "X1".data "X3".data ["X1".data, "X2".data, "X3".data] (by decide)
  exact ⟨sp, ep, h1, h2, h3⟩

/-- C2: every string containing a decimal digit parses to a triple whose
parts reassemble to the original, whose numeric part is a non-empty run of
digits, with no digit after it and no digit immediately before it (it is the
rightmost maximal digit run); and `"A1B23"` parses to
`("A1B", "23", "")`. -/
theorem parseSerial_rightmost_run (s : List Char) (h : ∃ c ∈ s, c.isDigit) :
    (∃ p : ParsedSerial, parseSerial s = some p ∧
      p.pre ++ p.numStr ++ p.suf = s ∧ p.numStr ≠ [] ∧
      (∀ c ∈ p.numStr, c.isDigit) ∧ (∀ c ∈ p.suf, ¬ c.isDigit) ∧
      (∀ c, p.pre.getLast? = some c → ¬ c.isDigit)) ∧
    parseSerial "A1B23".data = some ⟨"A1B".data, "23".data, []⟩ := by
  refine ⟨?_, by decide⟩
  cases hp : parseSerial s with
  | none =>
    obtain ⟨c, hc, hd⟩ := h
    exact absurd hd ((parseSerial_eq_none_iff s).mp hp c hc)
  | some p => exact ⟨p, rfl, parseSerial_some_spec hp⟩

/-- Witness for `parseSerial_rightmost_run` at the concrete string
`"A1B23"`. -/
theorem parseSerial_rightmost_run_witness :
    parseSerial "A1B23".data = some ⟨"A1B".data, "23".data, []⟩ :=
  (parseSerial_rightmost_run "A1B23".data ⟨'1', by decide, by decide⟩).2

/-- C3: every successful expansion renders each generated number left-padded
with `'0'` to at least `padWidth = max(len(start.numStr), len(end.numStr))`
characters, never truncated (its length is also at least the natural decimal
length, and a number already at least `padWidth` digits long is rendered
unchanged); `("IT-9","IT-11")` expands to `["IT-09","IT-10","IT-11"]` and
`("IT-001","IT-003")` to `["IT-001","IT-002","IT-003"]`. -/
theorem expandRange_padding_policy (a b : List Char) (res : List (List Char))
    (h : expandRange a b = .ok res) :
    (∃ sp ep : ParsedSerial, parseSerial a = some sp ∧ parseSerial b = some ep ∧
      ∀ x ∈ res, ∃ i : Nat,
        x = sp.pre ++ padStart (natToDigits i)
          (max sp.numStr.length ep.numStr.length) '0' ++ sp.suf ∧
        max sp.numStr.length ep.numStr.length ≤
          (padStart (natToDigits i) (max sp.numStr.length ep.numStr.length) '0').length ∧
        (natToDigits i).length ≤
          (padStart (natToDigits i) (max sp.numStr.length ep.numStr.length) '0').length ∧
        (max sp.numStr.length ep.numStr.length ≤ (natToDigits i).length →
          padStart (natToDigits i) (max sp.numStr.length ep.numStr.length) '0' =
            natToDigits i)) ∧
    expandRange "IT-9".data "IT-11".data =
      .ok ["IT-09".data, "IT-10".data, "IT-11".data] ∧
    expandRange "IT-001".data "IT-003".data =
      .ok ["IT-001".data, "IT-002".data, "IT-003".data] := by
  refine ⟨?_, by decide, by decide⟩
  obtain ⟨sp, ep, hpa, hpb, -, -, -, hres⟩ := expandRange_eq_ok h
  refine ⟨sp, ep, hpa, hpb, ?_⟩
  intro x hx
  subst hres
  obtain ⟨i, -, rfl⟩ := List.mem_map.mp hx
  refine ⟨i, rfl, ?_, ?_, fun hle => padStart_eq_of_le '0' hle⟩
  · rw [padStart_length]; exact Nat.le_max_left _ _
  · rw [padStart_length]; exact Nat.le_max_right _ _

/-- Witness for `expandRange_padding_policy` at `("IT-9","IT-11")`. -/
theorem expandRange_padding_policy_witness :
    expandRange "IT-9".data "IT-11".data = .ok ["IT-09".data, "IT-10".data, "IT-11".data] :=
  (expandRange_padding_policy "IT-9".data "IT-11".data
      ["IT-09".data, "IT-10".data, "IT-11".data] (by decide)).2.1

/-- C4: when a range-mode expansion succeeds with more than 1000 elements,
both intake paths fail with the too-large error whose message contains both
the cap `1000` and the actual requested count, returning no partial list;
with at most 1000 elements the full list is returned; `("1","1000")` yields
1000 serials and no error while `("1","1001")` fails reporting 1001. -/
theorem processing_cap_enforcement (f l : List Char) (res : List (List Char))
    (hf : jsTrim f ≠ []) (hl : jsTrim l ≠ [])
    (h : expandRange (jsTrim f) (jsTrim l) = .ok res) :
    (1000 < res.length →
      serialsProcessingResult .range f l [] = ⟨[], some (rangeTooLargeMsg res.length)⟩ ∧
      scannedSerialsProcessingResult true (some f) (some l) =
        ⟨[], some (rangeTooLargeMsg res.length)⟩ ∧
      (∃ u v : List Char, rangeTooLargeMsg res.length = u ++ "1000".data ++ v) ∧
      (∃ u v : List Char, rangeTooLargeMsg res.length =
        u ++ natToDigits res.length ++ v)) ∧
    (res.length ≤ 1000 → serialsProcessingResult .range f l [] = ⟨res, none⟩) ∧
    (serialsProcessingResult .range "1".data "1000".data []).serials.length = 1000 ∧
    (serialsProcessingResult .range "1".data "1000".data []).error = none ∧
    serialsProcessingResult .range "1".data "1001".data [] =
      ⟨[], some (rangeTooLargeMsg 1001)⟩ := by
  refine ⟨?_, ?_, by decide, by decide, by decide⟩
  · intro hcap
    refine ⟨?_, ?_, ?_, ?_⟩
    · simp [serialsProcessingResult_range_eq f l [] hf hl, h, hcap]
    · simp [scannedSerialsProcessingResult_eq f l hf hl, h, hcap]
    · refine ⟨"Range is too large. A maximum of ".data,
        " items can be added at once, but this range contains ".data ++
          natToDigits res.length ++ ".".data, ?_⟩
      unfold rangeTooLargeMsg
      rw [show
        "Range is too large. A maximum of 1000 items can be added at once, but this range contains ".data =
        "Range is too large. A maximum of ".data ++ "1000".data ++
          " items can be added at once, but this range contains ".data from by decide]
      simp [List.append_assoc]
    · exact ⟨"Range is too large. A maximum of 1000 items can be added at once, but this range contains ".data,
        ".".data, rfl⟩
  · intro hle
    have hnc : ¬ 1000 < res.length := by omega
    simp [serialsProcessingResult_range_eq f l [] hf hl, h, hnc]

/-- Witness for `processing_cap_enforcement` at `("1","3")`. -/
theorem processing_cap_enforcement_witness :
    jsTrim "1".data ≠ [] ∧
    serialsProcessingResult .range "1".data "3".data [] =
      ⟨["1".data, "2".data, "3".data], none⟩ :=
  ⟨by decide, (processing_cap_enforcement "1".data "3".data
      ["1".data, "2".data, "3".data] (by decide) (by decide) (by decide)).2.1 (by decide)⟩

/-- C5: if either input contains no decimal digit, expansion fails with the
invalid-format (missing numeric component) error regardless of every other
property of the inputs, i.e. before any structural, ordering or size check;
the empty string is legal parser input and parses to `none`; and
`("ABC","XYZ")` is rejected with this error. -/
theorem expandRange_missing_numeric (a b : List Char)
    (h : (∀ c ∈ a, ¬ c.isDigit) ∨ (∀ c ∈ b, ¬ c.isDigit)) :
    expandRange a b = .error invalidFormatMsg ∧
    parseSerial ([] : List Char) = none ∧
    expandRange "ABC".data "XYZ".data = .error invalidFormatMsg := by
  refine ⟨?_, by decide, by decide⟩
  rcases h with h | h
  · exact expandRange_none_left ((parseSerial_eq_none_iff a).mpr h)
  · exact expandRange_none_right ((parseSerial_eq_none_iff b).mpr h)

/-- Witness for `expandRange_missing_numeric`: `"ABC"` has no digits, and the
check fires even though the other endpoint `"123"` is numeric. -/
theorem expandRange_missing_numeric_witness :
    expandRange "ABC".data "123".data = .error invalidFormatMsg :=
  (expandRange_missing_numeric "ABC".data "123".data (Or.inl (by decide))).1

/-- C6: if both endpoints parse but their prefixes or suffixes differ (exact,
case-sensitive comparison), expansion fails with the text-parts-mismatch
error; `("A-1-Z","B-2-Z")` is rejected this way, and the mismatch error takes
precedence over the ordering check (`("B-9","A-2")` reports the mismatch, not
the reversed range). -/
theorem expandRange_mismatched_family (a b : List Char) (sp ep : ParsedSerial)
    (hpa : parseSerial a = some sp) (hpb : parseSerial b = some ep)
    (hne : sp.pre ≠ ep.pre ∨ sp.suf ≠ ep.suf) :
    expandRange a b = .error textPartsMismatchMsg ∧
    expandRange "A-1-Z".data "B-2-Z".data = .error textPartsMismatchMsg ∧
    expandRange "B-9".data "A-2".data = .error textPartsMismatchMsg := by
  refine ⟨?_, by decide, by decide⟩
  rw [expandRange_some_some hpa hpb, if_pos hne]

/-- Witness for `expandRange_mismatched_family` at `("A-1-Z","B-2-Z")`. -/
theorem expandRange_mismatched_family_witness :
    expandRange "A-1-Z".data "B-2-Z".data = .error textPartsMismatchMsg :=
  (expandRange_mismatched_family "A-1-Z".data "B-2-Z".data
      ⟨"A-".data, "1".data, "-Z".data⟩ ⟨"B-".data, "2".data, "-Z".data⟩
      (by decide) (by decide) (Or.inl (by decide))).1

/-- C7 counterexample: the pair `("X9007199254740993","X9007199254740992")`
passes parsing and structural compatibility and its start run exceeds its
end run as base-10 integers, so the claim requires the reversed-range error;
but the source's `parseInt` rounds both runs to the same double
(9007199254740992 = 2 ^ 53), the ordering check is skipped, and after 50
loop iterations the call is still running — in particular it has not
returned the reversed-range error. -/
theorem reversed_check_counterexample :
    digitsToNat "9007199254740992".data < digitsToNat "9007199254740993".data ∧
    parseSerial "X9007199254740993".data =
      some ⟨"X".data, "9007199254740993".data, []⟩ ∧
    parseSerial "X9007199254740992".data =
      some ⟨"X".data, "9007199254740992".data, []⟩ ∧
    parseIntJS "9007199254740993".data = parseIntJS "9007199254740992".data ∧
    expandRangeJS 50 "X9007199254740993".data "X9007199254740992".data = none ∧
    expandRangeJS 50 "X9007199254740993".data "X9007199254740992".data ≠
      some (.error reversedRangeMsg) :=
  ⟨by decide, by decide, by decide, by decide, by decide, by decide⟩

/-- C7 amended: under successful parsing and matching text parts, the
reversed-range error occurs exactly when the start run's parsed double value
exceeds the end run's parsed double value.  Because `parseInt` is exact
below 2 ^ 53, this coincides with the exact base-10 comparison (leading
zeros insignificant) whenever both run values are below 2 ^ 53, and there
equal values are legal and yield a single-element result — `("X5","X5")`
yields `["X5"]`.  At or beyond 2 ^ 53 the rounded values can compare equal
although the exact values differ, and then no reversed-range error is
reported and the call never returns for any amount of fuel. -/
theorem expandRange_reversed_js (a b : List Char) (sp ep : ParsedSerial)
    (hpa : parseSerial a = some sp) (hpb : parseSerial b = some ep)
    (hpre : sp.pre = ep.pre) (hsuf : sp.suf = ep.suf) :
    (∀ fuel : Nat, expandRangeJS fuel a b = some (.error reversedRangeMsg) ↔
      parseIntJS ep.numStr < parseIntJS sp.numStr) ∧
    (digitsToNat sp.numStr < 2 ^ 53 → digitsToNat ep.numStr < 2 ^ 53 →
      (parseIntJS ep.numStr < parseIntJS sp.numStr ↔
        digitsToNat ep.numStr < digitsToNat sp.numStr)) ∧
    (digitsToNat sp.numStr < 2 ^ 53 →
      digitsToNat sp.numStr = digitsToNat ep.numStr →
      ∃ fuel : Nat, expandRangeJS fuel a b =
        some (.ok [sp.pre ++ padStart (natToDigits (digitsToNat sp.numStr))
          (max sp.numStr.length ep.numStr.length) '0' ++ sp.suf])) ∧
    (∀ k : Nat, digitsToNat (List.replicate k '0' ++ sp.numStr) =
      digitsToNat sp.numStr) ∧
    expandRangeJS 2 "X5".data "X5".data = some (.ok ["X5".data]) ∧
    parseIntJS "9007199254740993".data = parseIntJS "9007199254740992".data ∧
    (∀ fuel : Nat,
      expandRangeJS fuel "X9007199254740993".data "X9007199254740992".data = none) := by
  refine ⟨?_, ?_, ?_, fun k => digitsToNat_replicate_zero_append k sp.numStr,
    by decide, by decide, ?_⟩
  · intro fuel
    rw [expandRangeJS_some_some fuel hpa hpb, if_neg (by simp [hpre, hsuf])]
    constructor
    · intro h
      by_contra hlt
      rw [if_neg hlt] at h
      exact map_ok_ne_some_error _ _ h
    · intro hlt
      rw [if_pos hlt]
  · intro hs he
    unfold parseIntJS
    rw [jsRound_eq_of_lt hs, jsRound_eq_of_lt he]
  · intro hs heq
    refine ⟨0 + 1 + 1, ?_⟩
    have hps : parseIntJS sp.numStr = digitsToNat sp.numStr := by
      unfold parseIntJS; rw [jsRound_eq_of_lt hs]
    have hpe : parseIntJS ep.numStr = digitsToNat ep.numStr := by
      unfold parseIntJS
      rw [jsRound_eq_of_lt (by omega : digitsToNat ep.numStr < 2 ^ 53)]
    rw [expandRangeJS_some_some _ hpa hpb, if_neg (by simp [hpre, hsuf]),
      if_neg (by rw [hps, hpe]; omega), hps, hpe, ← heq,
      genLoopJS_succ, if_neg (lt_irrefl _), genLoopJS_succ,
      if_pos (jsSucc_gt_of_lt hs)]
    rfl
  · intro fuel
    have hpa' : parseSerial "X9007199254740993".data =
        some ⟨"X".data, "9007199254740993".data, []⟩ := by decide
    have hpb' : parseSerial "X9007199254740992".data =
        some ⟨"X".data, "9007199254740992".data, []⟩ := by decide
    rw [expandRangeJS_some_some fuel hpa' hpb', if_neg (by simp), if_neg (by decide),
      show parseIntJS "9007199254740993".data = 9007199254740992 from by decide,
      show parseIntJS "9007199254740992".data = 9007199254740992 from by decide,
      genLoopJS_stall fuel 9007199254740992 9007199254740992 _ [] (by decide) (by simp)]
    rfl

/-- Witness for `expandRange_reversed_js` at `("X5","X5")`: both endpoints
parse, the text parts match, and the single-element conjunct is
extracted. -/
theorem expandRange_reversed_js_witness :
    expandRangeJS 2 "X5".data "X5".data = some (.ok ["X5".data]) :=
  (expandRange_reversed_js "X5".data "X5".data
      ⟨"X".data, "5".data, []⟩ ⟨"X".data, "5".data, []⟩
      (by decide) (by decide) rfl rfl).2.2.2.2.1

/-- C8 counterexample: the digit run `9007199254740993` (2 ^ 53 + 1) is not
exactly representable as a JavaScript number, yet the expansion with it as
both endpoints is not rejected: all validation checks pass and the call is
still running after 50 loop iterations, because the loop counter `i++`
cannot advance past 2 ^ 53. -/
theorem overflow_guard_counterexample :
    jsRound (digitsToNat "9007199254740993".data) ≠ digitsToNat "9007199254740993".data ∧
    expandRangeJS 50 "X9007199254740993".data "X9007199254740993".data = none ∧
    jsSucc 9007199254740992 = 9007199254740992 :=
  ⟨by decide, by decide, by decide⟩

/-- C8 amended: the code has no representability guard at all.  Every value
below 2 ^ 53 parses exactly; the longer run `9007199254740993` is silently
rounded to `9007199254740992`, passes every validation check, and the
generation loop then never terminates for it (no fuel suffices), instead of
the input being rejected. -/
theorem jsNumber_overflow_behavior :
    (∀ n : Nat, n < 2 ^ 53 → jsRound n = n) ∧
    parseIntJS "9007199254740993".data = 9007199254740992 ∧
    (∀ fuel : Nat,
      expandRangeJS fuel "X9007199254740993".data "X9007199254740993".data = none) := by
  refine ⟨fun n hn => jsRound_eq_of_lt hn, by decide, ?_⟩
  intro fuel
  have hpa : parseSerial "X9007199254740993".data =
      some ⟨"X".data, "9007199254740993".data, []⟩ := by decide
  rw [expandRangeJS_some_some fuel hpa hpa, if_neg (by simp), if_neg (by simp),
    show parseIntJS "9007199254740993".data = 9007199254740992 from by decide,
    genLoopJS_stall fuel 9007199254740992 9007199254740992 _ [] (by decide) (by simp)]
  rfl

/-- Witness for `jsNumber_overflow_behavior`: instantiation at `n = 5` and
`fuel = 3`. -/
theorem jsNumber_overflow_behavior_witness :
    jsRound 5 = 5 ∧
    expandRangeJS 3 "X9007199254740993".data "X9007199254740993".data = none :=
  ⟨jsNumber_overflow_behavior.1 5 (by norm_num), jsNumber_overflow_behavior.2.2 3⟩

/-- C9 counterexample: `expandRange` materializes the full sequence before
any cap check: on `("1","1001")` it returns a successful, fully built list of
1001 elements, which exceeds the 1000-item cap. -/
theorem cap_after_materialization_counterexample :
    okLength (expandRange "1".data "1001".data) = 1001 ∧
    1000 < okLength (expandRange "1".data "1001".data) :=
  ⟨by decide, by decide⟩

/-- C9 amended: a successful expansion's length is `endNum - startNum + 1`,
but the sequence is materialized in full by `expandRange` itself; the
1000-item cap is enforced only afterwards by the caller on the materialized
list's length, which then discards the list and returns the too-large
error with no serials. -/
theorem expansion_materializes_then_caps (f l : List Char) (res : List (List Char))
    (hf : jsTrim f ≠ []) (hl : jsTrim l ≠ [])
    (h : expandRange (jsTrim f) (jsTrim l) = .ok res) :
    (∃ sp ep : ParsedSerial, parseSerial (jsTrim f) = some sp ∧
      parseSerial (jsTrim l) = some ep ∧
      res.length = digitsToNat ep.numStr - digitsToNat sp.numStr + 1) ∧
    (1000 < res.length →
      serialsProcessingResult .range f l [] =
        ⟨[], some (rangeTooLargeMsg res.length)⟩) := by
  constructor
  · obtain ⟨sp, ep, hpa, hpb, -, -, -, hres⟩ := expandRange_eq_ok h
    exact ⟨sp, ep, hpa, hpb, by rw [hres]; simp [List.length_range']⟩
  · intro hcap
    simp [serialsProcessingResult_range_eq f l [] hf hl, h, hcap]

/-- Witness for `expansion_materializes_then_caps` at `("1","1001")`: the
1001-element list is built and the caller then reports the too-large
error. -/
theorem expansion_materializes_then_caps_witness :
    jsTrim "1".data ≠ [] ∧
    serialsProcessingResult .range "1".data "1001".data [] =
      ⟨[], some (rangeTooLargeMsg 1001)⟩ := by
  refine ⟨by decide, ?_⟩
  obtain ⟨res, hres⟩ : ∃ res, expandRange (jsTrim "1".data) (jsTrim "1001".data) = .ok res := by
    cases hE : expandRange (jsTrim "1".data) (jsTrim "1001".data) with
    | ok r => exact ⟨r, rfl⟩
    | error e =>
      have hlen : okLength (expandRange (jsTrim "1".data) (jsTrim "1001".data)) = 1001 := by
        decide
      rw [hE] at hlen
      simp [okLength] at hlen
  obtain ⟨⟨sp, ep, hpa, hpb, hlen⟩, hcap⟩ :=
    expansion_materializes_then_caps "1".data "1001".data res (by decide) (by decide) hres
  have hsp : parseSerial (jsTrim "1".data) = some ⟨[], "1".data, []⟩ := by decide
  have hep : parseSerial (jsTrim "1001".data) = some ⟨[], "1001".data, []⟩ := by decide
  rw [hpa] at hsp
  rw [hpb] at hep
  injection hsp with hsp
  injection hep with hep
  subst hsp
  subst hep
  rw [show digitsToNat "1001".data = 1001 from by decide,
    show digitsToNat "1".data = 1 from by decide] at hlen
  have h1001 : res.length = 1001 := by omega
  have := hcap (by omega)
  rw [h1001] at this
  exact this

/-- C10: in list mode, for every non-blank input text the lines are trimmed
and blank lines discarded, then the 1000-line cap is checked, and only after
it passes is the case-sensitive duplicate check applied to the trimmed lines;
`"A\n A"` is rejected as a duplicate (the two entries differ only in
surrounding whitespace), and a 1001-line list that is all duplicates is
reported only as too long. -/
theorem list_mode_intake (f l text : List Char) (h : jsTrim text ≠ []) :
    (serialsProcessingResult .list f l text =
      (if 1000 < (((text.splitOn '\n').map jsTrim).filter (fun s => s ≠ [])).length then
        ⟨[], some (listTooLongMsg
          (((text.splitOn '\n').map jsTrim).filter (fun s => s ≠ [])).length)⟩
      else if (((text.splitOn '\n').map jsTrim).filter (fun s => s ≠ [])).dedup.length ≠
          (((text.splitOn '\n').map jsTrim).filter (fun s => s ≠ [])).length then
        ⟨[], some duplicateSerialsMsg⟩
      else ⟨((text.splitOn '\n').map jsTrim).filter (fun s => s ≠ []), none⟩)) ∧
    serialsProcessingResult .list [] [] "A\n A".data = ⟨[], some duplicateSerialsMsg⟩ ∧
    serialsProcessingResult .list [] [] tooLongDupText =
      ⟨[], some (listTooLongMsg 1001)⟩ := by
  refine ⟨?_, by decide, by decide⟩
  simp only [serialsProcessingResult]
  rw [if_neg h]

/-- Witness for `list_mode_intake` at the text `"A"`, extracting the
whitespace-duplicate rejection. -/
theorem list_mode_intake_witness :
    jsTrim "A".data ≠ [] ∧
    serialsProcessingResult .list [] [] "A\n A".data = ⟨[], some duplicateSerialsMsg⟩ :=
  ⟨by decide, (list_mode_intake [] [] "A".data (by decide)).2.1⟩

end BreganSerials
